import Mathlib

/-!
Verification of the mrui slice viewer frontend.

Shallow embedding of the core logic of:
- `src/frontend/src/components/viewer/VolumeViewer.tsx`
  (LRU slice cache, in-flight request table, request de-duplication,
  token-guarded settlement, odometer scrolling)
- `src/frontend/src/components/viewer/ReglCanvas.tsx`
  (fragment shader windowing and sentinel masking; final revision)
- `src/frontend/src/components/viewer/transform.ts` (aspect fit)
- `src/frontend/src/utils/regl-webgl2-compat.ts` (texture format rewrite)

Conventions: JS `Map<string, V>` insertion order is modelled as an
association list whose head is the oldest entry; JS numbers that only ever
hold exact small values are modelled as `Nat`/`Int`/`ℚ`.
-/

namespace Mrui

/-! ## Data model: SliceEntry and the LRU cache (VolumeViewer.tsx) -/

/-- One decoded 2-D slice, as held in the cache
(`SliceEntry` in VolumeViewer.tsx; `dtype` is always float32 after decode,
`data` is modelled as the exact list of sample values). -/
structure SliceEntry where
  key : String
  index : Int
  width : Nat
  height : Nat
  data : List ℚ
deriving DecidableEq

/-- The slice cache: a JS `Map<string, SliceEntry>` in insertion order,
head = oldest (first to be evicted). -/
abbrev Cache := List (String × SliceEntry)

/-- Association lookup, first match wins (JS `Map.get` under the
unique-keys invariant a JS `Map` maintains). -/
def assocFind {α : Type} (m : List (String × α)) (k : String) : Option α :=
  match m with
  | [] => none
  | (k', v) :: rest => if k' = k then some v else assocFind rest k

/-- `touchLru` from VolumeViewer.tsx: `get`, and on a hit `delete` +
re-`set`, which moves the entry to most-recently-used (end of order). -/
def touchLru (m : Cache) (k : String) : Option SliceEntry × Cache :=
  match assocFind m k with
  | none => (none, m)
  | some v => (some v, (m.filter (fun p => p.1 ≠ k)) ++ [(k, v)])

/-- `SLICE_CACHE_SIZE` in VolumeViewer.tsx. -/
def SLICE_CACHE_SIZE : Nat := 7

/-- The `while (cache.size > SLICE_CACHE_SIZE)` eviction loop of
`cacheSlice`: repeatedly delete the oldest (first-inserted) key. -/
def evictOverCap : Cache → Cache
  | [] => []
  | x :: t => if (x :: t).length > SLICE_CACHE_SIZE then evictOverCap t else x :: t

/-- `cacheSlice` from VolumeViewer.tsx: delete the key, re-insert at
most-recently-used position, then evict oldest entries while over
capacity. -/
def cacheSlice (cache : Cache) (e : SliceEntry) : Cache :=
  evictOverCap ((cache.filter (fun p => p.1 ≠ e.key)) ++ [(e.key, e)])

/-! ## Slice fetch engine: loadSlice initiation and settlement -/

/-- Comma-join of the batch index list (`batchIndices.join(",")`). -/
def joinComma : List Nat → String
  | [] => ""
  | [x] => toString x
  | x :: rest => toString x ++ "," ++ joinComma rest

/-- `makeSliceKey` from VolumeViewer.tsx:
`` `${jobId}|${orientation}|${batchIndices.join(",")}|${index}` ``. -/
def makeSliceKey (jobId orientation : String) (batchIndices : List Nat)
    (index : Int) : String :=
  jobId ++ "|" ++ orientation ++ "|" ++ joinComma batchIndices ++ "|" ++ toString index

/-- The mutable refs of the viewer that `loadSlice` reads and writes:
`cacheRef`, `inflightRef` (each in-flight entry's shared promise is
identified by a request id), `contextTokenRef`, plus the component props
the slice key is built from. `networkRequests` counts calls into
`fetchSlice` (the transport layer). -/
structure EngineState where
  jobId : String
  orientation : String
  batchIndices : List Nat
  scrollMax : Nat
  currentToken : Nat
  cache : Cache
  inflight : List (String × Nat)
  nextRequestId : Nat
  networkRequests : Nat
deriving DecidableEq

/-- What a call to `loadSlice` returns, synchronously: an immediately
resolved `null` (out-of-range index), an immediately resolved cache hit,
or an in-flight promise identified by its request id. -/
inductive LoadResult where
  | outOfRange
  | cached (e : SliceEntry)
  | pending (rid : Nat)
deriving DecidableEq

/-- The synchronous part of `loadSlice(index, token)` in VolumeViewer.tsx:
range guard, LRU-touched cache lookup, in-flight de-duplication, and
otherwise start a new cancellable fetch and record it in the in-flight
table. -/
def loadSlice (st : EngineState) (index : Int) : LoadResult × EngineState :=
  if index < 0 ∨ index ≥ (st.scrollMax : Int) then (.outOfRange, st)
  else
    let key := makeSliceKey st.jobId st.orientation st.batchIndices index
    match touchLru st.cache key with
    | (some e, cache2) => (.cached e, { st with cache := cache2 })
    | (none, _) =>
      match assocFind st.inflight key with
      | some rid => (.pending rid, st)
      | none =>
        (.pending st.nextRequestId,
          { st with
            inflight := st.inflight ++ [(key, st.nextRequestId)],
            nextRequestId := st.nextRequestId + 1,
            networkRequests := st.networkRequests + 1 })

/-- How the awaited `fetchSlice` call concludes: a decoded payload
(`metadata.shape = [shape0, shape1]`, row-major data), or a thrown error
carrying its `name` and `message` (an aborted fetch throws with name
`"AbortError"`). -/
inductive FetchOutcome where
  | success (shape0 shape1 : Nat) (data : List ℚ)
  | failure (errName errMessage : String)
deriving DecidableEq

/-- How the promise returned by `loadSlice` settles: fulfilled with an
entry or with `null`, or rejected with the re-thrown error. -/
inductive SettleResult where
  | resolved (e : Option SliceEntry)
  | rejected (errName errMessage : String)
deriving DecidableEq

/-- `Map.delete` on the in-flight table. -/
def removeInflight (l : List (String × Nat)) (k : String) : List (String × Nat) :=
  l.filter (fun p => p.1 ≠ k)

/-- The async body of `loadSlice` at settlement time (the
`try`/`catch`/`finally` of VolumeViewer.tsx lines 130-157), applied to
the engine state current at that moment:
on success, a stale token resolves `null` without caching; a current
token builds the entry, caches it (with eviction) and resolves it; an
`AbortError` resolves `null`; any other error is re-thrown; in every
case the `finally` clause deletes the key from the in-flight table. -/
def settleFetch (st : EngineState) (key : String) (index : Int) (token : Nat)
    (outcome : FetchOutcome) : SettleResult × EngineState :=
  match outcome with
  | .success shape0 shape1 data =>
    if st.currentToken ≠ token then
      (.resolved none, { st with inflight := removeInflight st.inflight key })
    else
      let entry : SliceEntry :=
        { key := key, index := index, width := shape1, height := shape0, data := data }
      (.resolved (some entry),
        { st with
          cache := cacheSlice st.cache entry,
          inflight := removeInflight st.inflight key })
  | .failure name msg =>
    if name = "AbortError" then
      (.resolved none, { st with inflight := removeInflight st.inflight key })
    else
      (.rejected name msg, { st with inflight := removeInflight st.inflight key })

/-! ## Viewer UI state and the requestSliceSet continuation -/

/-- Insert into an ascending-sorted list (model of the JS numeric
ascending sort `(a, b) => a - b`). -/
def insertSorted (x : ℚ) : List ℚ → List ℚ
  | [] => [x]
  | y :: ys => if x ≤ y then x :: y :: ys else y :: insertSorted x ys

/-- Ascending sort of the sample data. -/
def sortAsc (l : List ℚ) : List ℚ := l.foldr insertSorted []

/-- JS `sorted[i] ?? d`: out-of-range indexing yields the default. -/
def getOrDefault (l : List ℚ) (i : Int) (d : ℚ) : ℚ :=
  if h : 0 ≤ i ∧ i.toNat < l.length then l.get ⟨i.toNat, h.2⟩ else d

/-- `computePercentiles` from VolumeViewer.tsx: sort ascending, index at
`floor((length - 1) * p)`, defaulting to 0 (resp. 1) when out of range. -/
def computePercentiles (data : List ℚ) (p1 p2 : ℚ) : ℚ × ℚ :=
  let sorted := sortAsc data
  let i1 : Int := ⌊((sorted.length : ℚ) - 1) * p1⌋
  let i2 : Int := ⌊((sorted.length : ℚ) - 1) * p2⌋
  (getOrDefault sorted i1 0, getOrDefault sorted i2 1)

/-- The React state and refs of the viewer that the `requestSliceSet`
settlement continuation can read or write: displayed slice, loading
flag, error, display window, auto-window bookkeeping, and the current
token / target index / context key at settlement time. -/
structure UiState where
  currentToken : Nat
  targetIndex : Int
  contextKey : String
  displayedSlice : Option SliceEntry
  isLoading : Bool
  errorMsg : Option String
  vmin : ℚ
  vmax : ℚ
  autoWindowContext : Option String
deriving DecidableEq

/-- `applyAutoWindowIfNeeded` from VolumeViewer.tsx: once per context,
set the window to the 1st/99th percentiles of the entry's data. -/
def applyAutoWindowIfNeeded (entry : SliceEntry) (st : UiState) : UiState :=
  if st.autoWindowContext = some st.contextKey then st
  else
    let p := computePercentiles entry.data (1/100) (99/100)
    { st with vmin := p.1, vmax := p.2, autoWindowContext := some st.contextKey }

/-- The continuation of `requestSliceSet` after `await loadSlice(...)`
(VolumeViewer.tsx lines 207-220): a fulfilled non-null entry updates the
display only when the target index and the captured token are both still
current; a fulfilled `null` changes nothing; a rejection sets the error
only under the same token/target guard. -/
def applyTargetSettlement (token : Nat) (targetIndex : Int)
    (result : SettleResult) (st : UiState) : UiState :=
  match result with
  | .resolved (some entry) =>
    if targetIndex = st.targetIndex ∧ token = st.currentToken then
      applyAutoWindowIfNeeded entry
        { st with displayedSlice := some entry, isLoading := false }
    else st
  | .resolved none => st
  | .rejected _ msg =>
    if token = st.currentToken ∧ targetIndex = st.targetIndex then
      { st with errorMsg := some msg, isLoading := false }
    else st

/-! ## Odometer scroll (handleOdometerScroll in VolumeViewer.tsx) -/

/-- One axis of the odometer loop body: add the carry, then wrap on
overflow (`newValues[i] >= scrollMaxes[i]` → 0, carry 1) or underflow
(`newValues[i] < 0` → radix-1, carry -1), else stop the carry. Returns
the new axis value and the outgoing carry. -/
def odoStep (carry v radix : Int) : Int × Int :=
  let nv := v + carry
  if nv ≥ radix then (0, 1)
  else if nv < 0 then (radix - 1, -1)
  else (nv, 0)

/-- The `for (let i = newValues.length - 1; i >= 0 && carry !== 0; i--)`
loop, expressed on the list of (value, radix) pairs taken in loop order
(fastest/spatial axis first, i.e. the reversed axis list); once the
carry is 0 the remaining axes are left unchanged. -/
def odoLoopRev (carry : Int) : List (Int × Int) → List Int
  | [] => []
  | (v, r) :: rest =>
    if carry = 0 then v :: rest.map Prod.fst
    else
      let s := odoStep carry v r
      s.1 :: odoLoopRev s.2 rest

/-- One odometer wheel tick on the mixed-radix counter
`[...batchIndices, sliceIndex]` with radices `[...batchDims, scrollMax]`
(both given slowest-axis first, exactly as in the source): carry is `+1`
when `delta > 0` and `-1` otherwise, applied starting at the last axis. -/
def odometerTick (radices values : List Int) (delta : Int) : List Int :=
  let carry : Int := if delta > 0 then 1 else -1
  (odoLoopRev carry (values.reverse.zip radices.reverse)).reverse

/-- The number denoted by a digit list in little-endian (fastest axis
first) mixed radix: `value (d :: ds) (r :: rs) = d + r * value ds rs`. -/
def valRevD : List Int → List Int → Int
  | [], _ => 0
  | _, [] => 0
  | d :: ds, r :: rs => d + r * valRevD ds rs

/-- Product of a radix list. -/
def prodR : List Int → Int
  | [] => 1
  | r :: rs => r * prodR rs

/-- Digit list `ds` is in range for radix list `rs`: same length and
`0 ≤ d < r` pointwise. -/
def DigitsInRange : List Int → List Int → Prop
  | [], [] => True
  | d :: ds, r :: rs => (0 ≤ d ∧ d < r) ∧ DigitsInRange ds rs
  | _, _ => False

instance : ∀ ds rs, Decidable (DigitsInRange ds rs)
  | [], [] => .isTrue trivial
  | [], _ :: _ => .isFalse id
  | _ :: _, [] => .isFalse id
  | _ :: ds, _ :: rs =>
    @instDecidableAnd _ _ _ (instDecidableDigitsInRange ds rs)

/-! ## Fragment shader (ReglCanvas.tsx, final revision, lines 386-405) -/

/-- A GLSL float sampled from the slice texture: either NaN or an exact
finite value (the shader only ever compares and windows it, so rationals
model the relevant arithmetic exactly). -/
inductive GlslFloat where
  | nan
  | val (q : ℚ)
deriving DecidableEq

/-- What the fragment stage writes to `gl_FragColor`: the fully
transparent `vec4(0,0,0,0)`, or a sample of the colormap LUT at
`vec2(coord, 0.5)`. -/
inductive FragColor where
  | transparent
  | colormapSample (coord : ℚ)
deriving DecidableEq

/-- GLSL `clamp(x, lo, hi) = min(max(x, lo), hi)`. -/
def clampQ (x lo hi : ℚ) : ℚ := min (max x lo) hi

/-- The fragment shader `main` of the final ReglCanvas revision:
`value != value` is true exactly for NaN, so the early transparent
return fires for NaN or `abs(value) > 1.0e20`; otherwise
`range = max(vmax - vmin, 0.0001)`,
`normalized = clamp((value - vmin) / range, 0.0, 1.0)` and the colormap
LUT is sampled at `normalized`. -/
def fragMain (value : GlslFloat) (vmin vmax : ℚ) : FragColor :=
  match value with
  | .nan => .transparent
  | .val v =>
    if |v| > 10 ^ 20 then .transparent
    else
      let range := max (vmax - vmin) (1 / 10000)
      .colormapSample (clampQ ((v - vmin) / range) 0 1)

/-! ## Aspect fit (transform.ts) -/

/-- The letterboxed rectangle returned by `getFittedRect`. -/
structure FittedRect where
  x : ℚ
  y : ℚ
  width : ℚ
  height : ℚ
deriving DecidableEq

/-- `getFittedRect` from transform.ts: compare image and container
aspect; the wider side fills the container, the other is centered. -/
def getFittedRect (containerWidth containerHeight imageWidth imageHeight : ℚ) :
    FittedRect :=
  let containerAspect := containerWidth / containerHeight
  let imageAspect := imageWidth / imageHeight
  if imageAspect > containerAspect then
    let width := containerWidth
    let height := containerWidth / imageAspect
    { x := 0, y := (containerHeight - height) * (1/2), width := width, height := height }
  else
    let height := containerHeight
    let width := containerHeight * imageAspect
    { x := (containerWidth - width) * (1/2), y := 0, width := width, height := height }

/-! ## WebGL2 compatibility shim (regl-webgl2-compat.ts)

GL constant values are those fixed by the WebGL/WebGL2 specifications
(the `gl.*` properties read by the shim). -/

def GL_DEPTH_COMPONENT : Nat := 0x1902
def GL_DEPTH_STENCIL : Nat := 0x84f9
def GL_LUMINANCE : Nat := 0x1909
def GL_LUMINANCE_ALPHA : Nat := 0x190a
def HALF_FLOAT_OES : Nat := 0x8d61
def GL_FLOAT : Nat := 0x1406
def GL_HALF_FLOAT : Nat := 0x140b
def GL_UNSIGNED_BYTE : Nat := 0x1401
def GL_RGBA : Nat := 0x1908
def GL_RGB : Nat := 0x1907
def GL_RED : Nat := 0x1903
def GL_RG : Nat := 0x8227
def GL_RGBA32F : Nat := 0x8814
def GL_RGB32F : Nat := 0x8815
def GL_R32F : Nat := 0x822e
def GL_RG32F : Nat := 0x8230
def GL_RGBA16F : Nat := 0x881a
def GL_RGB16F : Nat := 0x881b
def GL_R16F : Nat := 0x822d
def GL_RG16F : Nat := 0x822f
def GL_DEPTH_COMPONENT24 : Nat := 0x81a6
def GL_DEPTH24_STENCIL8 : Nat := 0x88f0
def GL_UNSIGNED_INT : Nat := 0x1405
def GL_UNSIGNED_INT_24_8 : Nat := 0x84fa

/-- `getInternalFormat`: promote a WebGL1 unsized internal format plus
type to the WebGL2 sized internal format. -/
def getInternalFormat (format type : Nat) : Nat :=
  if format = GL_DEPTH_COMPONENT then GL_DEPTH_COMPONENT24
  else if format = GL_DEPTH_STENCIL then GL_DEPTH24_STENCIL8
  else if type = GL_FLOAT then
    if format = GL_RGBA then GL_RGBA32F
    else if format = GL_RGB then GL_RGB32F
    else if format = GL_LUMINANCE then GL_R32F
    else if format = GL_LUMINANCE_ALPHA then GL_RG32F
    else format
  else if type = HALF_FLOAT_OES then
    if format = GL_RGBA then GL_RGBA16F
    else if format = GL_RGB then GL_RGB16F
    else if format = GL_LUMINANCE then GL_R16F
    else if format = GL_LUMINANCE_ALPHA then GL_RG16F
    else format
  else format

/-- `getTextureType`: translate the WebGL1 half-float constant to the
WebGL2 one. -/
def getTextureType (type : Nat) : Nat :=
  if type = HALF_FLOAT_OES then GL_HALF_FLOAT else type

/-- `getPixelFormat`: for float/half-float data, the legacy single- and
dual-channel pixel-transfer formats become RED and RG. -/
def getPixelFormat (format type : Nat) : Nat :=
  if type = GL_FLOAT ∨ type = HALF_FLOAT_OES then
    if format = GL_LUMINANCE then GL_RED
    else if format = GL_LUMINANCE_ALPHA then GL_RG
    else format
  else format

/-- The rewrite the wrapped 9-argument `texImage2D` applies to the
(internal format, pixel format, type) triple: each component is computed
from the call's original format/type pair. -/
def rewriteTexImage2D (iformat format type : Nat) : Nat × Nat × Nat :=
  (getInternalFormat iformat type, getPixelFormat format type, getTextureType type)

/-- The number the odometer state denotes, reading
`[...batchIndices, sliceIndex]` as a big-endian mixed-radix numeral with
radices `[...batchDims, scrollMax]`. -/
def mixedRadixVal (radices values : List Int) : Int :=
  valRevD values.reverse radices.reverse

/-! ## Helper lemmas: cache and association lists -/

theorem evictOverCap_eq_drop (c : Cache) :
    evictOverCap c = c.drop (c.length - SLICE_CACHE_SIZE) := by
  induction c with
  | nil => rfl
  | cons x t ih =>
    by_cases h : (x :: t).length > SLICE_CACHE_SIZE
    · rw [evictOverCap, if_pos h, ih]
      have h7 : (x :: t).length - SLICE_CACHE_SIZE = (t.length - SLICE_CACHE_SIZE) + 1 := by
        simp only [List.length_cons] at h ⊢
        omega
      rw [h7, List.drop_succ_cons]
    · rw [evictOverCap, if_neg h]
      have h0 : (x :: t).length - SLICE_CACHE_SIZE = 0 := by omega
      rw [h0, List.drop_zero]

theorem evictOverCap_length_le (c : Cache) :
    (evictOverCap c).length ≤ SLICE_CACHE_SIZE := by
  rw [evictOverCap_eq_drop, List.length_drop]
  omega

theorem cacheSlice_length_le (c : Cache) (e : SliceEntry) :
    (cacheSlice c e).length ≤ SLICE_CACHE_SIZE :=
  evictOverCap_length_le _

theorem assocFind_none_of_forall {α : Type} {l : List (String × α)} {k : String}
    (h : ∀ p ∈ l, p.1 ≠ k) : assocFind l k = none := by
  induction l with
  | nil => rfl
  | cons p rest ih =>
    rw [assocFind, if_neg (h p (List.mem_cons_self p rest))]
    exact ih (fun q hq => h q (List.mem_cons_of_mem p hq))

theorem assocFind_filter_ne {α : Type} (l : List (String × α)) (k : String) :
    assocFind (l.filter (fun p => p.1 ≠ k)) k = none := by
  apply assocFind_none_of_forall
  intro p hp
  exact of_decide_eq_true (List.mem_filter.mp hp).2

theorem assocFind_append_single {α : Type} {l : List (String × α)} {k : String}
    (h : assocFind l k = none) (v : α) :
    assocFind (l ++ [(k, v)]) k = some v := by
  induction l with
  | nil => simp [assocFind]
  | cons p rest ih =>
    rw [assocFind] at h
    by_cases hp : p.1 = k
    · rw [if_pos hp] at h; exact absurd h (by simp)
    · rw [if_neg hp] at h
      rw [List.cons_append, assocFind, if_neg hp]
      exact ih h

/-- The entry just written by `cacheSlice` is always retrievable: the
eviction loop only ever drops oldest entries, never the one being
inserted. -/
theorem cacheSlice_assocFind_self (c : Cache) (e : SliceEntry) :
    assocFind (cacheSlice c e) e.key = some e := by
  unfold cacheSlice
  rw [evictOverCap_eq_drop]
  set l := c.filter (fun p => p.1 ≠ e.key) with hl
  set n := (l ++ [(e.key, e)]).length - SLICE_CACHE_SIZE with hn
  have hle : n ≤ l.length := by
    simp only [hn, List.length_append, List.length_cons, List.length_nil]
    have : 0 < SLICE_CACHE_SIZE := by decide
    omega
  rw [List.drop_append_of_le_length hle]
  apply assocFind_append_single
  apply assocFind_none_of_forall
  intro p hp
  have hmem : p ∈ l := List.mem_of_mem_drop hp
  rw [hl] at hmem
  exact of_decide_eq_true (List.mem_filter.mp hmem).2

/-! ## Helper lemmas: mixed-radix digits -/

theorem digitsInRange_length {ds rs : List Int} (h : DigitsInRange ds rs) :
    ds.length = rs.length := by
  induction ds generalizing rs with
  | nil =>
    cases rs with
    | nil => rfl
    | cons r rs => exact h.elim
  | cons d ds ih =>
    cases rs with
    | nil => exact h.elim
    | cons r rs => simp only [List.length_cons]; rw [ih h.2]

theorem digitsInRange_zip {ds rs : List Int} (h : DigitsInRange ds rs) :
    ∀ p ∈ ds.zip rs, 0 ≤ p.1 ∧ p.1 < p.2 := by
  induction ds generalizing rs with
  | nil => intro p hp; simp at hp
  | cons d ds ih =>
    cases rs with
    | nil => exact h.elim
    | cons r rs =>
      intro p hp
      rw [List.zip_cons_cons] at hp
      rcases List.mem_cons.mp hp with h1 | h2
      · subst h1; exact h.1
      · exact ih h.2 p h2

theorem digitsInRange_append {ds rs : List Int} (h : DigitsInRange ds rs)
    {d r : Int} (hd : 0 ≤ d) (hr : d < r) :
    DigitsInRange (ds ++ [d]) (rs ++ [r]) := by
  induction ds generalizing rs with
  | nil =>
    cases rs with
    | nil => exact ⟨⟨hd, hr⟩, trivial⟩
    | cons => exact h.elim
  | cons d0 ds ih =>
    cases rs with
    | nil => exact h.elim
    | cons r0 rs => exact ⟨h.1, ih h.2⟩

theorem digitsInRange_reverse {ds rs : List Int} (h : DigitsInRange ds rs) :
    DigitsInRange ds.reverse rs.reverse := by
  induction ds generalizing rs with
  | nil =>
    cases rs with
    | nil => trivial
    | cons => exact h.elim
  | cons d ds ih =>
    cases rs with
    | nil => exact h.elim
    | cons r rs =>
      rw [List.reverse_cons, List.reverse_cons]
      exact digitsInRange_append (ih h.2) h.1.1 h.1.2

theorem digitsInRange_of_pairs {l : List (Int × Int)}
    (h : ∀ p ∈ l, 0 ≤ p.1 ∧ p.1 < p.2) :
    DigitsInRange (l.map Prod.fst) (l.map Prod.snd) := by
  induction l with
  | nil => trivial
  | cons p rest ih =>
    exact ⟨h p (List.mem_cons_self p rest),
      ih (fun q hq => h q (List.mem_cons_of_mem p hq))⟩

theorem prodR_pos {rs : List Int} (h : ∀ r ∈ rs, 0 < r) : 0 < prodR rs := by
  induction rs with
  | nil => exact one_pos
  | cons r rest ih =>
    rw [prodR]
    exact mul_pos (h r (List.mem_cons_self r rest))
      (ih fun x hx => h x (List.mem_cons_of_mem r hx))

theorem prodR_append (l1 l2 : List Int) :
    prodR (l1 ++ l2) = prodR l1 * prodR l2 := by
  induction l1 with
  | nil => rw [List.nil_append, prodR, one_mul]
  | cons r rest ih => rw [List.cons_append, prodR, prodR, ih, mul_assoc]

theorem prodR_reverse (l : List Int) : prodR l.reverse = prodR l := by
  induction l with
  | nil => rfl
  | cons r rest ih =>
    rw [List.reverse_cons, prodR_append, ih, prodR, prodR, prodR, mul_one]
    ring

theorem valRevD_nonneg {ds rs : List Int} (h : DigitsInRange ds rs) :
    0 ≤ valRevD ds rs := by
  induction ds generalizing rs with
  | nil => cases rs <;> simp [valRevD]
  | cons d ds ih =>
    cases rs with
    | nil => simp [valRevD]
    | cons r rs =>
      rw [valRevD]
      have h1 := h.1
      have h2 := ih h.2
      have hr : (0 : Int) < r := lt_of_le_of_lt h1.1 h1.2
      exact add_nonneg h1.1 (mul_nonneg hr.le h2)

theorem valRevD_lt_prod {ds rs : List Int} (h : DigitsInRange ds rs) :
    valRevD ds rs < prodR rs := by
  induction ds generalizing rs with
  | nil =>
    cases rs with
    | nil => simp [valRevD, prodR]
    | cons r rs => exact h.elim
  | cons d ds ih =>
    cases rs with
    | nil => exact h.elim
    | cons r rs =>
      rw [valRevD, prodR]
      have h1 := h.1
      have h2 := ih h.2
      have h3 := valRevD_nonneg h.2
      have hr : (0 : Int) < r := lt_of_le_of_lt h1.1 h1.2
      nlinarith [mul_le_mul_of_nonneg_left (Int.lt_iff_add_one_le.mp h2) hr.le]

/-! ## Helper lemmas: the odometer carry loop -/

theorem odoStep_eq_overflow {c v r : Int} (h : v + c ≥ r) :
    odoStep c v r = (0, 1) := by
  simp only [odoStep]
  rw [if_pos h]

theorem odoStep_eq_underflow {c v r : Int} (h1 : ¬v + c ≥ r) (h2 : v + c < 0) :
    odoStep c v r = (r - 1, -1) := by
  simp only [odoStep]
  rw [if_neg h1, if_pos h2]

theorem odoStep_eq_plain {c v r : Int} (h1 : ¬v + c ≥ r) (h2 : ¬v + c < 0) :
    odoStep c v r = (v + c, 0) := by
  simp only [odoStep]
  rw [if_neg h1, if_neg h2]

theorem odoLoopRev_zero (l : List (Int × Int)) :
    odoLoopRev 0 l = l.map Prod.fst := by
  cases l <;> simp [odoLoopRev]

theorem odoLoopRev_cons {c : Int} (hc : c ≠ 0) (v r : Int)
    (rest : List (Int × Int)) :
    odoLoopRev c ((v, r) :: rest) =
      (odoStep c v r).1 :: odoLoopRev (odoStep c v r).2 rest := by
  rw [odoLoopRev, if_neg hc]

/-- Forward carry: one `+1` tick computes the mixed-radix successor
modulo the radix product (little-endian pair-list form). -/
theorem odoLoopRev_one (l : List (Int × Int))
    (h : ∀ p ∈ l, 0 ≤ p.1 ∧ p.1 < p.2) :
    valRevD (odoLoopRev 1 l) (l.map Prod.snd) =
      (valRevD (l.map Prod.fst) (l.map Prod.snd) + 1) %
        prodR (l.map Prod.snd) := by
  induction l with
  | nil => decide
  | cons vr rest ih =>
    obtain ⟨v, r⟩ := vr
    have hvr := h (v, r) (List.mem_cons_self _ _)
    have hrest : ∀ p ∈ rest, 0 ≤ p.1 ∧ p.1 < p.2 :=
      fun p hp => h p (List.mem_cons_of_mem _ hp)
    have hr : (0 : Int) < r := lt_of_le_of_lt hvr.1 hvr.2
    have hDrest := digitsInRange_of_pairs hrest
    have hnn := valRevD_nonneg hDrest
    have hlt := valRevD_lt_prod hDrest
    have hppos : 0 < prodR (rest.map Prod.snd) :=
      prodR_pos (by
        intro x hx
        rcases List.mem_map.mp hx with ⟨p, hp, hpx⟩
        have := hrest p hp
        omega)
    rw [List.map_cons, List.map_cons,
      odoLoopRev_cons (by norm_num : (1 : Int) ≠ 0)]
    by_cases hov : v + 1 ≥ r
    · rw [odoStep_eq_overflow hov]
      rw [valRevD, ih hrest, valRevD, prodR]
      rw [← Int.mul_emod_mul_of_pos _ _ hr]
      have hveq : v + 1 = r := by omega
      have heq : v + r * valRevD (rest.map Prod.fst) (rest.map Prod.snd) + 1 =
          r * (valRevD (rest.map Prod.fst) (rest.map Prod.snd) + 1) := by
        rw [mul_add, mul_one]
        linarith
      rw [heq]
      ring
    · have hnv0 : ¬v + 1 < 0 := by omega
      rw [odoStep_eq_plain hov hnv0, odoLoopRev_zero]
      rw [valRevD, valRevD, prodR]
      have hb1 : 0 ≤ v + r * valRevD (rest.map Prod.fst) (rest.map Prod.snd) + 1 := by
        nlinarith
      have hb2 : v + r * valRevD (rest.map Prod.fst) (rest.map Prod.snd) + 1 <
          r * prodR (rest.map Prod.snd) := by
        nlinarith [mul_le_mul_of_nonneg_left (Int.lt_iff_add_one_le.mp hlt) hr.le]
      rw [Int.emod_eq_of_lt hb1 hb2]
      ring

/-- Backward carry: one `-1` tick computes the mixed-radix predecessor
modulo the radix product (little-endian pair-list form). -/
theorem odoLoopRev_negOne (l : List (Int × Int))
    (h : ∀ p ∈ l, 0 ≤ p.1 ∧ p.1 < p.2) :
    valRevD (odoLoopRev (-1) l) (l.map Prod.snd) =
      (valRevD (l.map Prod.fst) (l.map Prod.snd) - 1) %
        prodR (l.map Prod.snd) := by
  induction l with
  | nil => decide
  | cons vr rest ih =>
    obtain ⟨v, r⟩ := vr
    have hvr := h (v, r) (List.mem_cons_self _ _)
    have hrest : ∀ p ∈ rest, 0 ≤ p.1 ∧ p.1 < p.2 :=
      fun p hp => h p (List.mem_cons_of_mem _ hp)
    have hr : (0 : Int) < r := lt_of_le_of_lt hvr.1 hvr.2
    have hDrest := digitsInRange_of_pairs hrest
    have hnn := valRevD_nonneg hDrest
    have hlt := valRevD_lt_prod hDrest
    have hppos : 0 < prodR (rest.map Prod.snd) :=
      prodR_pos (by
        intro x hx
        rcases List.mem_map.mp hx with ⟨p, hp, hpx⟩
        have := hrest p hp
        omega)
    have hge : ¬v + -1 ≥ r := by omega
    rw [List.map_cons, List.map_cons,
      odoLoopRev_cons (by norm_num : (-1 : Int) ≠ 0)]
    by_cases hz : v + -1 < 0
    · have hv0 : v = 0 := by omega
      rw [odoStep_eq_underflow hge hz]
      rw [valRevD, ih hrest, valRevD, prodR, hv0]
      set m := prodR (rest.map Prod.snd) with hm
      set w := valRevD (rest.map Prod.fst) (rest.map Prod.snd) with hw
      have hm1 : 0 ≤ (w - 1) % m := Int.emod_nonneg _ (ne_of_gt hppos)
      have hm2 : (w - 1) % m < m := Int.emod_lt_of_pos _ hppos
      have hsplit : (0 : Int) + r * w - 1 = r * (w - 1) + (r - 1) := by ring
      rw [hsplit, Int.add_emod, Int.mul_emod_mul_of_pos _ _ hr]
      have hr1 : (r - 1) % (r * m) = r - 1 := by
        apply Int.emod_eq_of_lt (by omega)
        nlinarith
      rw [hr1]
      have hfin : (r * ((w - 1) % m) + (r - 1)) % (r * m) =
          r * ((w - 1) % m) + (r - 1) := by
        apply Int.emod_eq_of_lt (by nlinarith)
        nlinarith [mul_le_mul_of_nonneg_left (Int.lt_iff_add_one_le.mp hm2) hr.le]
      rw [hfin]
      ring
    · have hv1 : 1 ≤ v := by omega
      rw [odoStep_eq_plain hge hz, odoLoopRev_zero]
      rw [valRevD, valRevD, prodR]
      have hb1 : 0 ≤ v + r * valRevD (rest.map Prod.fst) (rest.map Prod.snd) - 1 := by
        nlinarith
      have hb2 : v + r * valRevD (rest.map Prod.fst) (rest.map Prod.snd) - 1 <
          r * prodR (rest.map Prod.snd) := by
        nlinarith [mul_le_mul_of_nonneg_left (Int.lt_iff_add_one_le.mp hlt) hr.le]
      rw [Int.emod_eq_of_lt hb1 hb2]
      ring

/-- Every resulting digit stays inside its `[0, radix)` range, for any
carry in `{1, 0, -1}`. -/
theorem odoLoopRev_inRange (c : Int) (l : List (Int × Int))
    (hc : c = 1 ∨ c = 0 ∨ c = -1)
    (h : ∀ p ∈ l, 0 ≤ p.1 ∧ p.1 < p.2) :
    DigitsInRange (odoLoopRev c l) (l.map Prod.snd) := by
  induction l generalizing c with
  | nil => trivial
  | cons vr rest ih =>
    obtain ⟨v, r⟩ := vr
    have hvr := h (v, r) (List.mem_cons_self _ _)
    have hrest : ∀ p ∈ rest, 0 ≤ p.1 ∧ p.1 < p.2 :=
      fun p hp => h p (List.mem_cons_of_mem _ hp)
    have hr : (0 : Int) < r := lt_of_le_of_lt hvr.1 hvr.2
    rw [List.map_cons]
    by_cases hc0 : c = 0
    · subst hc0
      rw [odoLoopRev_zero, List.map_cons]
      exact ⟨hvr, digitsInRange_of_pairs hrest⟩
    · rw [odoLoopRev_cons hc0]
      by_cases h1 : v + c ≥ r
      · rw [odoStep_eq_overflow h1]
        exact ⟨⟨le_refl 0, hr⟩, ih 1 (Or.inl rfl) hrest⟩
      · by_cases h2 : v + c < 0
        · rw [odoStep_eq_underflow h1 h2]
          exact ⟨⟨by omega, by omega⟩, ih (-1) (Or.inr (Or.inr rfl)) hrest⟩
        · rw [odoStep_eq_plain h1 h2]
          exact ⟨⟨by omega, by omega⟩, ih 0 (Or.inr (Or.inl rfl)) hrest⟩

/-- Ticking forward from the all-maximal state rolls every axis to 0. -/
theorem odoLoopRev_allMax (rs : List Int) (h : ∀ r ∈ rs, 1 ≤ r) :
    odoLoopRev 1 ((rs.map (fun r => r - 1)).zip rs) =
      rs.map (fun _ => 0) := by
  induction rs with
  | nil => rfl
  | cons r rest ih =>
    rw [List.map_cons, List.map_cons, List.zip_cons_cons,
      odoLoopRev_cons (by norm_num : (1 : Int) ≠ 0),
      odoStep_eq_overflow (by omega : r - 1 + 1 ≥ r)]
    rw [ih fun x hx => h x (List.mem_cons_of_mem r hx)]

/-- Ticking backward from the all-zero state rolls every axis to its
maximum. -/
theorem odoLoopRev_allZero (rs : List Int) (h : ∀ r ∈ rs, 1 ≤ r) :
    odoLoopRev (-1) ((rs.map (fun _ => (0 : Int))).zip rs) =
      rs.map (fun r => r - 1) := by
  induction rs with
  | nil => rfl
  | cons r rest ih =>
    have hr1 : (1 : Int) ≤ r := h r (List.mem_cons_self r rest)
    rw [List.map_cons, List.map_cons, List.zip_cons_cons,
      odoLoopRev_cons (by norm_num : (-1 : Int) ≠ 0),
      odoStep_eq_underflow (by omega) (by omega)]
    rw [ih fun x hx => h x (List.mem_cons_of_mem r hx)]

theorem odometerTick_pos (radices values : List Int) :
    odometerTick radices values 1 =
      (odoLoopRev 1 (values.reverse.zip radices.reverse)).reverse := by
  simp only [odometerTick]
  norm_num

theorem odometerTick_neg (radices values : List Int) :
    odometerTick radices values (-1) =
      (odoLoopRev (-1) (values.reverse.zip radices.reverse)).reverse := by
  simp only [odometerTick]
  norm_num

/-! ## Concrete states for scenarios and witnesses -/

/-- A minimal slice entry used by the concrete LRU scenario. -/
def sampleEntry (k : String) : SliceEntry :=
  { key := k, index := 0, width := 1, height := 1, data := [] }

/-- The cache produced by inserting A,B,C,D,E,F,G, touching A, then
inserting H. -/
def lruScenario : Cache :=
  cacheSlice
    ((touchLru
      (["A", "B", "C", "D", "E", "F", "G"].foldl
        (fun c k => cacheSlice c (sampleEntry k)) []) "A").2)
    (sampleEntry "H")

/-! ## Claim theorems -/

/-- Claim C3: the slice cache never holds more than 7 entries, and with
a full cache the least-recently-touched entry is evicted, where a read
re-orders to most-recently-used: after inserting A..G, touching A, then
inserting H, the evicted key is B and A remains cached (resulting order
C,D,E,F,G,A,H). -/
theorem C3_cache_capacity_and_lru :
    (∀ (c : Cache) (e : SliceEntry), (cacheSlice c e).length ≤ 7) ∧
    assocFind lruScenario "B" = none ∧
    assocFind lruScenario "A" = some (sampleEntry "A") ∧
    lruScenario.map Prod.fst = ["C", "D", "E", "F", "G", "A", "H"] := by
  refine ⟨fun c e => cacheSlice_length_le c e, ?_, ?_, ?_⟩ <;> decide

/-- Claim C2: a sampled slice value that is NaN or whose absolute value
exceeds 1e20 makes the fragment stage emit the fully transparent pixel
and never sample the colormap LUT; every other value produces the LUT
sample at `clamp((value - vmin) / max(vmax - vmin, 0.0001), 0, 1)`. -/
theorem C2_fragment_sentinel_masking :
    ∀ (value : GlslFloat) (vmin vmax : ℚ),
      ((value = .nan ∨ ∃ q, value = .val q ∧ |q| > 10 ^ 20) →
        fragMain value vmin vmax = .transparent) ∧
      (∀ q, value = .val q → ¬|q| > 10 ^ 20 →
        fragMain value vmin vmax =
          .colormapSample
            (clampQ ((q - vmin) / max (vmax - vmin) (1 / 10000)) 0 1)) := by
  intro value vmin vmax
  constructor
  · rintro (rfl | ⟨q, rfl, hq⟩)
    · rfl
    · simp only [fragMain]
      rw [if_pos hq]
  · rintro q rfl hq
    simp only [fragMain]
    rw [if_neg hq]

/-- Witness for C2 on the spec's test inputs NaN, 1e21, -1e21 and a
finite in-range value. -/
theorem C2_fragment_sentinel_masking_witness :
    fragMain .nan 0 1 = .transparent ∧
    fragMain (.val (10 ^ 21)) 0 1 = .transparent ∧
    fragMain (.val (-(10 ^ 21))) 0 1 = .transparent ∧
    fragMain (.val (1 / 2)) 0 1 =
      .colormapSample (clampQ (((1 : ℚ) / 2 - 0) / max (1 - 0) (1 / 10000)) 0 1) :=
  ⟨(C2_fragment_sentinel_masking .nan 0 1).1 (Or.inl rfl),
   (C2_fragment_sentinel_masking (.val (10 ^ 21)) 0 1).1
     (Or.inr ⟨10 ^ 21, rfl, by norm_num⟩),
   (C2_fragment_sentinel_masking (.val (-(10 ^ 21))) 0 1).1
     (Or.inr ⟨-(10 ^ 21), rfl, by rw [abs_neg]; norm_num⟩),
   (C2_fragment_sentinel_masking (.val (1 / 2)) 0 1).2 (1 / 2) rfl
     (by rw [abs_of_nonneg (by norm_num : (0 : ℚ) ≤ 1 / 2)]; norm_num)⟩

/-- Claim C5: one odometer wheel tick applies carry +1 (resp. -1) to the
mixed-radix counter `[...batchIndices, sliceIndex]` with radices
`[...batchDims, scrollMax]`, starting at the last axis and propagating
carries: the new counter value is the old value plus or minus one,
modulo the radix product; in particular with `batchDims=[2,3]`,
`scrollMax=4`, `batchIndices=[0,2]`, `sliceIndex=3`, one forward tick
yields `batchIndices=[1,0]`, `sliceIndex=0`. -/
theorem C5_odometer_mixed_radix_tick :
    odometerTick [2, 3, 4] [0, 2, 3] 1 = [1, 0, 0] ∧
    ∀ radices values, DigitsInRange values radices →
      mixedRadixVal radices (odometerTick radices values 1) =
        (mixedRadixVal radices values + 1) % prodR radices ∧
      mixedRadixVal radices (odometerTick radices values (-1)) =
        (mixedRadixVal radices values - 1) % prodR radices := by
  constructor
  · decide
  · intro radices values h
    have hrev := digitsInRange_reverse h
    have hlen : values.reverse.length = radices.reverse.length :=
      digitsInRange_length hrev
    have hzip := digitsInRange_zip hrev
    have hfst : (values.reverse.zip radices.reverse).map Prod.fst = values.reverse :=
      List.map_fst_zip _ _ (le_of_eq hlen)
    have hsnd : (values.reverse.zip radices.reverse).map Prod.snd = radices.reverse :=
      List.map_snd_zip _ _ (le_of_eq hlen.symm)
    constructor
    · rw [odometerTick_pos]
      unfold mixedRadixVal
      rw [List.reverse_reverse]
      have hres := odoLoopRev_one _ hzip
      rw [hfst, hsnd] at hres
      rw [hres, prodR_reverse]
    · rw [odometerTick_neg]
      unfold mixedRadixVal
      rw [List.reverse_reverse]
      have hres := odoLoopRev_negOne _ hzip
      rw [hfst, hsnd] at hres
      rw [hres, prodR_reverse]

/-- Witness for C5 at the claim's own concrete state. -/
theorem C5_odometer_mixed_radix_tick_witness :
    DigitsInRange [0, 2, 3] [2, 3, 4] ∧
    (mixedRadixVal [2, 3, 4] (odometerTick [2, 3, 4] [0, 2, 3] 1) =
        (mixedRadixVal [2, 3, 4] [0, 2, 3] + 1) % prodR [2, 3, 4] ∧
      mixedRadixVal [2, 3, 4] (odometerTick [2, 3, 4] [0, 2, 3] (-1)) =
        (mixedRadixVal [2, 3, 4] [0, 2, 3] - 1) % prodR [2, 3, 4]) :=
  ⟨by decide, C5_odometer_mixed_radix_tick.2 [2, 3, 4] [0, 2, 3] (by decide)⟩

/-- Claim C10: from the all-maximal odometer state one forward tick
wraps the whole counter to all zeros (the final carry is discarded);
symmetrically one backward tick from all zeros yields every axis at its
maximum; and every resulting index stays within its `[0, radix)`
range. -/
theorem C10_odometer_wraparound :
    (∀ radices : List Int, (∀ r ∈ radices, 1 ≤ r) →
      odometerTick radices (radices.map (fun r => r - 1)) 1 =
        radices.map (fun _ => 0) ∧
      odometerTick radices (radices.map (fun _ => 0)) (-1) =
        radices.map (fun r => r - 1)) ∧
    (∀ radices values delta, DigitsInRange values radices →
      DigitsInRange (odometerTick radices values delta) radices) := by
  constructor
  · intro radices h
    have hrevh : ∀ r ∈ radices.reverse, (1 : Int) ≤ r := by
      intro r hr
      exact h r (List.mem_reverse.mp hr)
    constructor
    · rw [odometerTick_pos, ← List.map_reverse, odoLoopRev_allMax _ hrevh,
        List.map_reverse, List.reverse_reverse]
    · rw [odometerTick_neg, ← List.map_reverse, odoLoopRev_allZero _ hrevh,
        List.map_reverse, List.reverse_reverse]
  · intro radices values delta h
    have hrev := digitsInRange_reverse h
    have hlen : values.reverse.length = radices.reverse.length :=
      digitsInRange_length hrev
    have hzip := digitsInRange_zip hrev
    have hsnd : (values.reverse.zip radices.reverse).map Prod.snd = radices.reverse :=
      List.map_snd_zip _ _ (le_of_eq hlen.symm)
    have hc : (if delta > 0 then (1 : Int) else -1) = 1 ∨
        (if delta > 0 then (1 : Int) else -1) = 0 ∨
        (if delta > 0 then (1 : Int) else -1) = -1 := by
      by_cases hd : delta > 0 <;> simp [hd]
    have hres := odoLoopRev_inRange _ _ hc hzip
    rw [hsnd] at hres
    have hout := digitsInRange_reverse hres
    rw [List.reverse_reverse] at hout
    simp only [odometerTick]
    exact hout

/-- Witness for C10 at radices [2,3,4]. -/
theorem C10_odometer_wraparound_witness :
    (∀ r ∈ [(2 : Int), 3, 4], 1 ≤ r) ∧
    odometerTick [2, 3, 4] ([(2 : Int), 3, 4].map (fun r => r - 1)) 1 =
      [(2 : Int), 3, 4].map (fun _ => 0) ∧
    odometerTick [2, 3, 4] ([(2 : Int), 3, 4].map (fun _ => 0)) (-1) =
      [(2 : Int), 3, 4].map (fun r => r - 1) ∧
    DigitsInRange [0, 2, 3] [2, 3, 4] ∧
    DigitsInRange (odometerTick [2, 3, 4] [0, 2, 3] 1) [2, 3, 4] :=
  ⟨by decide,
   (C10_odometer_wraparound.1 [2, 3, 4] (by decide)).1,
   (C10_odometer_wraparound.1 [2, 3, 4] (by decide)).2,
   by decide,
   C10_odometer_wraparound.2 [2, 3, 4] [0, 2, 3] 1 (by decide)⟩

/-- Claim C9: `getFittedRect 800 600 100 50` is the width-constrained
aspect-preserving fit `(x=0, y=100, w=800, h=400)`; in general an image
wider than the container fills its width with the height centered, and
otherwise fills its height with the width centered. -/
theorem C9_fitted_rect :
    getFittedRect 800 600 100 50 =
      { x := 0, y := 100, width := 800, height := 400 } ∧
    ∀ cw ch iw ih : ℚ,
      (iw / ih > cw / ch →
        getFittedRect cw ch iw ih =
          { x := 0, y := (ch - cw / (iw / ih)) * (1 / 2), width := cw,
            height := cw / (iw / ih) }) ∧
      (¬iw / ih > cw / ch →
        getFittedRect cw ch iw ih =
          { x := (cw - ch * (iw / ih)) * (1 / 2), y := 0,
            width := ch * (iw / ih), height := ch }) := by
  refine ⟨by norm_num [getFittedRect], ?_⟩
  intro cw ch iw ih
  constructor
  · intro h
    simp only [getFittedRect]
    rw [if_pos h]
  · intro h
    simp only [getFittedRect]
    rw [if_neg h]

/-- Witness for C9 at the claim's concrete call. -/
theorem C9_fitted_rect_witness :
    ((100 : ℚ) / 50 > 800 / 600) ∧
    getFittedRect 800 600 100 50 =
      { x := 0, y := ((600 : ℚ) - 800 / ((100 : ℚ) / 50)) * (1 / 2), width := 800,
        height := (800 : ℚ) / ((100 : ℚ) / 50) } :=
  ⟨by norm_num, (C9_fitted_rect.2 800 600 100 50).1 (by norm_num)⟩

/-- The WebGL1 unsized formats a caller may legally request. -/
def legacyFormats : List Nat :=
  [GL_DEPTH_COMPONENT, GL_DEPTH_STENCIL, GL_LUMINANCE, GL_LUMINANCE_ALPHA,
    GL_RGB, GL_RGBA]

/-- The pixel data types a WebGL1 caller may pair with them. -/
def legacyTypes : List Nat :=
  [GL_UNSIGNED_BYTE, GL_UNSIGNED_INT, GL_UNSIGNED_INT_24_8, GL_FLOAT,
    HALF_FLOAT_OES]

/-- Claim C6: for a legacy single-channel (LUMINANCE) float upload the
shim rewrites the internal format to R32F, the pixel-transfer format to
RED and the type to the WebGL2 FLOAT constant; analogously for
LUMINANCE_ALPHA, RGB, RGBA, the depth formats and the half-float type;
and since all three rewrites are computed from the original format/type
pair, re-applying the rewrite to an already-rewritten call changes
nothing. -/
theorem C6_shim_texture_format_rewrite :
    rewriteTexImage2D GL_LUMINANCE GL_LUMINANCE GL_FLOAT =
      (GL_R32F, GL_RED, GL_FLOAT) ∧
    rewriteTexImage2D GL_LUMINANCE_ALPHA GL_LUMINANCE_ALPHA GL_FLOAT =
      (GL_RG32F, GL_RG, GL_FLOAT) ∧
    rewriteTexImage2D GL_RGB GL_RGB GL_FLOAT =
      (GL_RGB32F, GL_RGB, GL_FLOAT) ∧
    rewriteTexImage2D GL_RGBA GL_RGBA GL_FLOAT =
      (GL_RGBA32F, GL_RGBA, GL_FLOAT) ∧
    rewriteTexImage2D GL_LUMINANCE GL_LUMINANCE HALF_FLOAT_OES =
      (GL_R16F, GL_RED, GL_HALF_FLOAT) ∧
    rewriteTexImage2D GL_LUMINANCE_ALPHA GL_LUMINANCE_ALPHA HALF_FLOAT_OES =
      (GL_RG16F, GL_RG, GL_HALF_FLOAT) ∧
    rewriteTexImage2D GL_RGB GL_RGB HALF_FLOAT_OES =
      (GL_RGB16F, GL_RGB, GL_HALF_FLOAT) ∧
    rewriteTexImage2D GL_RGBA GL_RGBA HALF_FLOAT_OES =
      (GL_RGBA16F, GL_RGBA, GL_HALF_FLOAT) ∧
    rewriteTexImage2D GL_DEPTH_COMPONENT GL_DEPTH_COMPONENT GL_UNSIGNED_INT =
      (GL_DEPTH_COMPONENT24, GL_DEPTH_COMPONENT, GL_UNSIGNED_INT) ∧
    rewriteTexImage2D GL_DEPTH_STENCIL GL_DEPTH_STENCIL GL_UNSIGNED_INT_24_8 =
      (GL_DEPTH24_STENCIL8, GL_DEPTH_STENCIL, GL_UNSIGNED_INT_24_8) ∧
    (∀ f ∈ legacyFormats, ∀ t ∈ legacyTypes,
      rewriteTexImage2D (rewriteTexImage2D f f t).1 (rewriteTexImage2D f f t).2.1
          (rewriteTexImage2D f f t).2.2 =
        rewriteTexImage2D f f t) := by
  decide

/-- Witness for C6: the single-rewrite property at the LUMINANCE/FLOAT
cell of the matrix. -/
theorem C6_shim_texture_format_rewrite_witness :
    GL_LUMINANCE ∈ legacyFormats ∧ GL_FLOAT ∈ legacyTypes ∧
    rewriteTexImage2D (rewriteTexImage2D GL_LUMINANCE GL_LUMINANCE GL_FLOAT).1
        (rewriteTexImage2D GL_LUMINANCE GL_LUMINANCE GL_FLOAT).2.1
        (rewriteTexImage2D GL_LUMINANCE GL_LUMINANCE GL_FLOAT).2.2 =
      rewriteTexImage2D GL_LUMINANCE GL_LUMINANCE GL_FLOAT :=
  ⟨by decide, by decide,
   C6_shim_texture_format_rewrite.2.2.2.2.2.2.2.2.2.2
     GL_LUMINANCE (by decide) GL_FLOAT (by decide)⟩

/-- Claim C8: a cancelled slice request resolves to null rather than
rejecting: an `AbortError` settlement fulfills the promise with null,
surfaces no error, leaves the cache untouched, and removes the key from
the in-flight table. -/
theorem C8_abort_resolves_null :
    ∀ (st : EngineState) (key : String) (index : Int) (token : Nat) (msg : String),
      (settleFetch st key index token (.failure "AbortError" msg)).1 =
        .resolved none ∧
      (settleFetch st key index token (.failure "AbortError" msg)).2 =
        { st with inflight := removeInflight st.inflight key } ∧
      assocFind
          (settleFetch st key index token (.failure "AbortError" msg)).2.inflight
          key = none := by
  intro st key index token msg
  refine ⟨rfl, rfl, ?_⟩
  exact assocFind_filter_ne st.inflight key

/-- Claim C4 (stale responses never update displayed state): when the
token captured at request time differs from the current token at
resolution time, the `requestSliceSet` continuation leaves the displayed
slice, the loading flag and the window (vmin/vmax) unchanged, whatever
the settlement was. -/
theorem C4_stale_token_no_display_update :
    ∀ (token : Nat) (targetIndex : Int) (result : SettleResult) (st : UiState),
      token ≠ st.currentToken →
      (applyTargetSettlement token targetIndex result st).displayedSlice =
        st.displayedSlice ∧
      (applyTargetSettlement token targetIndex result st).isLoading =
        st.isLoading ∧
      (applyTargetSettlement token targetIndex result st).vmin = st.vmin ∧
      (applyTargetSettlement token targetIndex result st).vmax = st.vmax := by
  intro token ti result st h
  cases result with
  | resolved e =>
    cases e with
    | none => exact ⟨rfl, rfl, rfl, rfl⟩
    | some entry =>
      have hg : ¬(ti = st.targetIndex ∧ token = st.currentToken) :=
        fun hc => h hc.2
      simp only [applyTargetSettlement]
      rw [if_neg hg]
      exact ⟨rfl, rfl, rfl, rfl⟩
  | rejected n m =>
    have hg : ¬(token = st.currentToken ∧ ti = st.targetIndex) :=
      fun hc => h hc.1
    simp only [applyTargetSettlement]
    rw [if_neg hg]
    exact ⟨rfl, rfl, rfl, rfl⟩

/-- A viewer UI state at token 1, used to witness the stale-token
guard. -/
def sampleUiState : UiState :=
  { currentToken := 1, targetIndex := 0, contextKey := "job|yx|",
    displayedSlice := none, isLoading := true, errorMsg := none,
    vmin := 0, vmax := 1, autoWindowContext := none }

/-- Witness for C4: a stale (token 0) successful settlement against the
token-1 state changes nothing on the display. -/
theorem C4_stale_token_no_display_update_witness :
    (0 ≠ sampleUiState.currentToken) ∧
    ((applyTargetSettlement 0 0 (.resolved (some (sampleEntry "k")))
        sampleUiState).displayedSlice = sampleUiState.displayedSlice ∧
      (applyTargetSettlement 0 0 (.resolved (some (sampleEntry "k")))
        sampleUiState).isLoading = sampleUiState.isLoading ∧
      (applyTargetSettlement 0 0 (.resolved (some (sampleEntry "k")))
        sampleUiState).vmin = sampleUiState.vmin ∧
      (applyTargetSettlement 0 0 (.resolved (some (sampleEntry "k")))
        sampleUiState).vmax = sampleUiState.vmax) :=
  ⟨by decide,
   C4_stale_token_no_display_update 0 0 (.resolved (some (sampleEntry "k")))
     sampleUiState (by decide)⟩

/-- Claim C7: two overlapping `loadSlice` calls for the same key make
exactly one network request and return the same in-flight promise: the
first call starts request `nextRequestId` and bumps the transport
counter once; the second call returns the same pending request and
leaves the state untouched. -/
theorem C7_overlapping_loads_deduplicated :
    ∀ (st : EngineState) (index : Int),
      ¬(index < 0 ∨ index ≥ (st.scrollMax : Int)) →
      assocFind st.cache
        (makeSliceKey st.jobId st.orientation st.batchIndices index) = none →
      assocFind st.inflight
        (makeSliceKey st.jobId st.orientation st.batchIndices index) = none →
      (loadSlice st index).1 = .pending st.nextRequestId ∧
      (loadSlice (loadSlice st index).2 index).1 = .pending st.nextRequestId ∧
      (loadSlice st index).2.networkRequests = st.networkRequests + 1 ∧
      (loadSlice (loadSlice st index).2 index).2 = (loadSlice st index).2 := by
  intro st index hr hc hi
  have h1 : loadSlice st index = (.pending st.nextRequestId,
      { st with
        inflight := st.inflight ++
          [(makeSliceKey st.jobId st.orientation st.batchIndices index,
            st.nextRequestId)],
        nextRequestId := st.nextRequestId + 1,
        networkRequests := st.networkRequests + 1 }) := by
    simp only [loadSlice, touchLru, hc, hi]
    rw [if_neg hr]
  have h2 : loadSlice (loadSlice st index).2 index =
      (.pending st.nextRequestId, (loadSlice st index).2) := by
    rw [h1]
    simp only [loadSlice, touchLru, hc,
      assocFind_append_single hi st.nextRequestId]
    rw [if_neg hr]
  rw [h1] at h2 ⊢
  rw [h2]
  exact ⟨rfl, rfl, rfl, rfl⟩

/-- A fresh engine state with an empty cache and in-flight table. -/
def sampleEngineState : EngineState :=
  { jobId := "job", orientation := "yx", batchIndices := [], scrollMax := 4,
    currentToken := 0, cache := [], inflight := [], nextRequestId := 0,
    networkRequests := 0 }

/-- Witness for C7: two back-to-back loads of slice 2 from the fresh
state share request id 0 and one network request. -/
theorem C7_overlapping_loads_deduplicated_witness :
    ¬((2 : Int) < 0 ∨ (2 : Int) ≥ (sampleEngineState.scrollMax : Int)) ∧
    assocFind sampleEngineState.cache
      (makeSliceKey sampleEngineState.jobId sampleEngineState.orientation
        sampleEngineState.batchIndices 2) = none ∧
    assocFind sampleEngineState.inflight
      (makeSliceKey sampleEngineState.jobId sampleEngineState.orientation
        sampleEngineState.batchIndices 2) = none ∧
    ((loadSlice sampleEngineState 2).1 =
        .pending sampleEngineState.nextRequestId ∧
      (loadSlice (loadSlice sampleEngineState 2).2 2).1 =
        .pending sampleEngineState.nextRequestId ∧
      (loadSlice sampleEngineState 2).2.networkRequests =
        sampleEngineState.networkRequests + 1 ∧
      (loadSlice (loadSlice sampleEngineState 2).2 2).2 =
        (loadSlice sampleEngineState 2).2) :=
  ⟨by decide, rfl, rfl,
   C7_overlapping_loads_deduplicated sampleEngineState 2 (by decide) rfl rfl⟩

/-- An engine state whose current token (1) is newer than a request
captured at token 0. -/
def staleEngineState : EngineState :=
  { jobId := "job", orientation := "yx", batchIndices := [], scrollMax := 4,
    currentToken := 1, cache := [], inflight := [("k", 0)], nextRequestId := 1,
    networkRequests := 1 }

/-- Counterexample to claim C1 as stated: a successful fetch settling
after the context token moved on (captured 0, current 1) resolves null
and does NOT insert the entry into the cache — the cache stays empty —
although the key is removed from the in-flight table. -/
theorem C1_counterexample_stale_success_not_cached :
    (settleFetch staleEngineState "k" 0 0 (.success 1 1 [0])).1 =
      .resolved none ∧
    (settleFetch staleEngineState "k" 0 0 (.success 1 1 [0])).2.cache = [] ∧
    assocFind
      (settleFetch staleEngineState "k" 0 0 (.success 1 1 [0])).2.inflight
      "k" = none := by
  refine ⟨rfl, rfl, ?_⟩
  exact assocFind_filter_ne staleEngineState.inflight "k"

/-- Claim C1 (amended): on every successful settlement the key is
removed from the in-flight table; the resulting SliceEntry is inserted
into the cache (with the eviction policy applied) exactly when the token
captured at request time still equals the current token — a stale
success resolves null without caching. -/
theorem C1_success_settlement :
    ∀ (st : EngineState) (key : String) (index : Int) (token : Nat)
      (shape0 shape1 : Nat) (data : List ℚ),
      assocFind
        (settleFetch st key index token
          (.success shape0 shape1 data)).2.inflight key = none ∧
      (st.currentToken = token →
        (settleFetch st key index token (.success shape0 shape1 data)).1 =
          .resolved (some { key := key, index := index, width := shape1,
                            height := shape0, data := data }) ∧
        assocFind
          (settleFetch st key index token
            (.success shape0 shape1 data)).2.cache key =
          some { key := key, index := index, width := shape1,
                 height := shape0, data := data }) := by
  intro st key index token s0 s1 data
  constructor
  · by_cases h : st.currentToken ≠ token
    · simp only [settleFetch]
      rw [if_pos h]
      exact assocFind_filter_ne st.inflight key
    · simp only [settleFetch]
      rw [if_neg h]
      exact assocFind_filter_ne st.inflight key
  · intro h
    simp only [settleFetch]
    rw [if_neg (not_not_intro h)]
    exact ⟨rfl, cacheSlice_assocFind_self st.cache _⟩

/-- A fresh engine state still at token 0 with request "k" in flight. -/
def freshEngineState : EngineState :=
  { jobId := "job", orientation := "yx", batchIndices := [], scrollMax := 4,
    currentToken := 0, cache := [], inflight := [("k", 0)], nextRequestId := 1,
    networkRequests := 1 }

/-- Witness for C1: a success settling while its token is still current
caches the entry and clears the in-flight key. -/
theorem C1_success_settlement_witness :
    assocFind
      (settleFetch freshEngineState "k" 0 0 (.success 1 1 [0])).2.inflight
      "k" = none ∧
    freshEngineState.currentToken = 0 ∧
    (settleFetch freshEngineState "k" 0 0 (.success 1 1 [0])).1 =
      .resolved (some { key := "k", index := 0, width := 1, height := 1,
                        data := [0] }) ∧
    assocFind
      (settleFetch freshEngineState "k" 0 0 (.success 1 1 [0])).2.cache
      "k" =
      some { key := "k", index := 0, width := 1, height := 1, data := [0] } :=
  ⟨(C1_success_settlement freshEngineState "k" 0 0 1 1 [0]).1, rfl,
   ((C1_success_settlement freshEngineState "k" 0 0 1 1 [0]).2 rfl).1,
   ((C1_success_settlement freshEngineState "k" 0 0 1 1 [0]).2 rfl).2⟩

end Mrui
